import Mathlib

/-!
Verification of the conversation-correlation and reply-waiting core of the
`whatsapp-me` MCP server (sources: `src/server/src/index.ts`,
`src/server/src/message-manager.ts`, `src/server/src/webhook-security.ts`).

The development shallowly embeds:
* the phone-number normalizer and the pending-reply table of `index.ts`
  (a JS `Map` from normalized phone number to `\x7bresolve, reject, timeout\x7d`,
  together with the `setTimeout` timers) as an explicit state machine;
* the conversation registry and webhook event processing of
  `message-manager.ts`, with JS values, property access, truthiness and
  thrown `TypeError`s modelled explicitly;
* the HMAC-SHA256 signature gate of `webhook-security.ts`, with SHA-256 and
  HMAC implemented from FIPS 180-4 / RFC 2104 over byte lists (`Nat`s `< 256`),
  Node's lenient `Buffer.from(·, 'hex')` decoding, and the hand-rolled
  constant-time comparison.

JS `Map`s are modelled as association lists, JS numbers as `Int`
(`parseInt` results as `Option Int`, `none` standing for `NaN`), and the
external collaborators (the Meta send API, `JSON.parse`, `Date.now`) as
explicit parameters.
-/

set_option autoImplicit false
set_option maxRecDepth 100000
set_option maxHeartbeats 1600000

namespace WhatsappMe

/-! ### Association lists (model of JS `Map`) -/

/-- Lookup in an association list (model of `Map.get`). -/
def alookup {κ α : Type} [DecidableEq κ] (k : κ) : List (κ × α) → Option α
  | [] => none
  | p :: rest => if p.1 = k then some p.2 else alookup k rest

/-- Overwrite-or-append insertion (model of `Map.set`). -/
def aset {κ α : Type} [DecidableEq κ] (k : κ) (v : α) : List (κ × α) → List (κ × α)
  | [] => [(k, v)]
  | p :: rest => if p.1 = k then (k, v) :: rest else p :: aset k v rest

/-- Removal of a key (model of `Map.delete`). -/
def aerase {κ α : Type} [DecidableEq κ] (k : κ) : List (κ × α) → List (κ × α)
  | [] => []
  | p :: rest => if p.1 = k then aerase k rest else p :: aerase k rest

/-- Pointwise update of an existing entry (leaves the list unchanged when the
key is absent). -/
def aupdate {κ α : Type} [DecidableEq κ] (k : κ) (f : α → α) (l : List (κ × α)) :
    List (κ × α) :=
  l.map (fun p => if p.1 = k then (p.1, f p.2) else p)

/-! ### Phone number normalizer

`index.ts` lines 41-44:
`function normalizePhoneNumber(phone) \x7b return phone.replace(/[^0-9]/g, ''); \x7d` -/

/-- Strips every character that is not a decimal digit. -/
def normalizePhoneNumber (phone : String) : String :=
  ⟨phone.data.filter (fun c => c.isDigit)⟩

/-! ### Pending-reply table (`index.ts` lines 46-52, 79-98, 250-262)

State of the `pendingResponses` map together with the `setTimeout` timers and
the settlement state of each waiter's promise.  Waiters (promises) are
identified by `Nat` ids; a timer is identified by the waiter it would reject
and carries the key it captured (`normalizedUserPhone` in the source). -/

/-- Terminal outcome of one reply-wait promise: fulfilled with the reply text
(`pending.resolve(text)`), or rejected by its timeout
(`reject(new Error('Timeout waiting for user reply'))`). -/
inductive POutcome : Type
  | reply (text : String)
  | timeout
deriving DecidableEq

/-- State of the reply-waiting core of `index.ts`:
`pending` is the `pendingResponses` map (key: normalized phone number, value:
waiter id); `armed` is the set of not-yet-fired, not-yet-cleared timers
(waiter id, captured key); `settled` records each waiter's outcome. -/
structure PState : Type where
  pending : List (String × Nat)
  armed : List (Nat × String)
  settled : List (Nat × POutcome)
deriving DecidableEq

/-- Settling a promise: a JS promise settles at most once, so a second
settlement is a no-op. -/
def settle (w : Nat) (o : POutcome) (m : List (Nat × POutcome)) : List (Nat × POutcome) :=
  match alookup w m with
  | some _ => m
  | none => aset w o m

/-- The events that touch the pending-reply table:
* `register w k` — `send_message` with `wait_for_reply` creates the promise
  `w`, schedules its timer and stores the entry (`index.ts` 250-261);
* `inbound f t` — the `onMessageReceived` callback runs for a message with
  sender `f` and text `t` (`index.ts` 79-98);
* `fire w k` — the timer of registration `w` (which captured key `k`) fires
  (`index.ts` 251-254). -/
inductive PEvent : Type
  | register (w : Nat) (key : String)
  | inbound (from_ : String) (text : String)
  | fire (w : Nat) (key : String)
deriving DecidableEq

/-- One step of the reply-waiting core.

* `register`: `pendingResponses.set(key, ...)` silently overwrites any
  existing entry and does not clear the previous entry's timer.
* `inbound`: normalizes the sender, looks the key up; if a waiter is found,
  clears its timer (`clearTimeout`), deletes the entry and resolves; otherwise
  does nothing.
* `fire`: only an armed (uncleared, unfired) timer can fire; it deletes the
  table entry for its captured key unconditionally and rejects its waiter. -/
def pstep (s : PState) : PEvent → PState
  | .register w k =>
    { pending := aset k w s.pending
      armed := (w, k) :: s.armed
      settled := s.settled }
  | .inbound f t =>
    let nk := normalizePhoneNumber f
    match alookup nk s.pending with
    | some w =>
      { pending := aerase nk s.pending
        armed := s.armed.filter (fun p => decide (p.1 ≠ w))
        settled := settle w (.reply t) s.settled }
    | none => s
  | .fire w k =>
    if (w, k) ∈ s.armed then
      { pending := aerase k s.pending
        armed := s.armed.filter (fun p => decide (p ≠ (w, k)))
        settled := settle w .timeout s.settled }
    else s

/-- Running a sequence of events. -/
def prun (s : PState) (es : List PEvent) : PState :=
  es.foldl pstep s

/-! ### SHA-256 and HMAC-SHA256 (model of Node `crypto.createHmac('sha256', ·)`)

Bytes are `Nat`s `< 256`, 32-bit words are `Nat`s reduced mod `2 ^ 32`.
SHA-256 follows FIPS 180-4; HMAC follows RFC 2104. -/

/-- Iterate a function `n` times. -/
def iterN {α : Type} (f : α → α) : Nat → α → α
  | 0, a => a
  | n + 1, a => iterN f n (f a)

/-- Rotate a 32-bit word right by `n` positions. -/
def rotr32 (n x : Nat) : Nat :=
  ((x >>> n) ||| (x <<< (32 - n))) % 2 ^ 32

/-- SHA-256 `Ch` function (bitwise complement taken within 32 bits). -/
def sha2Ch (x y z : Nat) : Nat :=
  (x &&& y) ^^^ ((x ^^^ 0xffffffff) &&& z)

/-- SHA-256 `Maj` function. -/
def sha2Maj (x y z : Nat) : Nat :=
  (x &&& y) ^^^ (x &&& z) ^^^ (y &&& z)

/-- SHA-256 big sigma 0. -/
def bsig0 (x : Nat) : Nat := rotr32 2 x ^^^ rotr32 13 x ^^^ rotr32 22 x

/-- SHA-256 big sigma 1. -/
def bsig1 (x : Nat) : Nat := rotr32 6 x ^^^ rotr32 11 x ^^^ rotr32 25 x

/-- SHA-256 small sigma 0. -/
def ssig0 (x : Nat) : Nat := rotr32 7 x ^^^ rotr32 18 x ^^^ (x >>> 3)

/-- SHA-256 small sigma 1. -/
def ssig1 (x : Nat) : Nat := rotr32 17 x ^^^ rotr32 19 x ^^^ (x >>> 10)

/-- The 64 SHA-256 round constants. -/
def sha2K : List Nat :=
  [0x428A2F98, 0x71374491, 0xB5C0FBCF, 0xE9B5DBA5, 0x3956C25B, 0x59F111F1,
   0x923F82A4, 0xAB1C5ED5, 0xD807AA98, 0x12835B01, 0x243185BE, 0x550C7DC3,
   0x72BE5D74, 0x80DEB1FE, 0x9BDC06A7, 0xC19BF174, 0xE49B69C1, 0xEFBE4786,
   0x0FC19DC6, 0x240CA1CC, 0x2DE92C6F, 0x4A7484AA, 0x5CB0A9DC, 0x76F988DA,
   0x983E5152, 0xA831C66D, 0xB00327C8, 0xBF597FC7, 0xC6E00BF3, 0xD5A79147,
   0x06CA6351, 0x14292967, 0x27B70A85, 0x2E1B2138, 0x4D2C6DFC, 0x53380D13,
   0x650A7354, 0x766A0ABB, 0x81C2C92E, 0x92722C85, 0xA2BFE8A1, 0xA81A664B,
   0xC24B8B70, 0xC76C51A3, 0xD192E819, 0xD6990624, 0xF40E3585, 0x106AA070,
   0x19A4C116, 0x1E376C08, 0x2748774C, 0x34B0BCB5, 0x391C0CB3, 0x4ED8AA4A,
   0x5B9CCA4F, 0x682E6FF3, 0x748F82EE, 0x78A5636F, 0x84C87814, 0x8CC70208,
   0x90BEFFFA, 0xA4506CEB, 0xBEF9A3F7, 0xC67178F2]

/-- The SHA-256 initial hash value. -/
def sha2H0 : List Nat :=
  [0x6A09E667, 0xBB67AE85, 0x3C6EF372, 0xA54FF53A,
   0x510E527F, 0x9B05688C, 0x1F83D9AB, 0x5BE0CD19]

/-- The eight working variables of the compression loop. -/
structure Hash8 : Type where
  a : Nat
  b : Nat
  c : Nat
  d : Nat
  e : Nat
  f : Nat
  g : Nat
  h : Nat
deriving DecidableEq

/-- One round of the SHA-256 compression loop; `kw` pairs the round constant
with the scheduled word. -/
def sha2Round (s : Hash8) (kw : Nat × Nat) : Hash8 :=
  let t1 := (s.h + bsig1 s.e + sha2Ch s.e s.f s.g + kw.1 + kw.2) % 2 ^ 32
  let t2 := (bsig0 s.a + sha2Maj s.a s.b s.c) % 2 ^ 32
  { a := (t1 + t2) % 2 ^ 32
    b := s.a
    c := s.b
    d := s.c
    e := (s.d + t1) % 2 ^ 32
    f := s.e
    g := s.f
    h := s.g }

/-- Extend the message schedule by one word. -/
def stepW (w : List Nat) : List Nat :=
  let t := w.length
  w ++ [(ssig1 (w.getD (t - 2) 0) + w.getD (t - 7) 0 + ssig0 (w.getD (t - 15) 0)
        + w.getD (t - 16) 0) % 2 ^ 32]

/-- Full 64-word message schedule from the 16 words of a block. -/
def scheduleW (w16 : List Nat) : List Nat :=
  iterN stepW 48 w16

/-- Big-endian bytes of a 32-bit word. -/
def wordBytes (w : Nat) : List Nat :=
  [(w >>> 24) &&& 0xff, (w >>> 16) &&& 0xff, (w >>> 8) &&& 0xff, w &&& 0xff]

/-- Big-endian 8-byte encoding of the message bit length. -/
def lenBytes8 (n : Nat) : List Nat :=
  [(n >>> 56) &&& 0xff, (n >>> 48) &&& 0xff, (n >>> 40) &&& 0xff, (n >>> 32) &&& 0xff,
   (n >>> 24) &&& 0xff, (n >>> 16) &&& 0xff, (n >>> 8) &&& 0xff, n &&& 0xff]

/-- Group 4 consecutive bytes into a big-endian 32-bit word. -/
def toWords : List Nat → List Nat
  | b0 :: b1 :: b2 :: b3 :: rest =>
    ((b0 <<< 24) ||| (b1 <<< 16) ||| (b2 <<< 8) ||| b3) :: toWords rest
  | _ => []

/-- SHA-256 padding: `0x80`, zeros, and the 64-bit big-endian bit length. -/
def padMsg (msg : List Nat) : List Nat :=
  let L := msg.length
  let k := (64 - (L + 9) % 64) % 64
  msg ++ [0x80] ++ List.replicate k 0 ++ lenBytes8 (8 * L)

/-- Split a list into 64-byte blocks (fuel-driven so that it reduces by
structural recursion; the fuel is the list length, which suffices because
every step consumes at least one element). -/
def chunks64Aux : Nat → List Nat → List (List Nat)
  | 0, _ => []
  | _ + 1, [] => []
  | fuel + 1, l => l.take 64 :: chunks64Aux fuel (l.drop 64)

/-- Split the padded message into 64-byte blocks. -/
def chunks64 (l : List Nat) : List (List Nat) :=
  chunks64Aux l.length l

/-- Compress one 64-byte block into the running hash (8 words). -/
def sha2Compress (H : List Nat) (block : List Nat) : List Nat :=
  let ws := scheduleW (toWords block)
  let init : Hash8 :=
    { a := H.getD 0 0, b := H.getD 1 0, c := H.getD 2 0, d := H.getD 3 0
      e := H.getD 4 0, f := H.getD 5 0, g := H.getD 6 0, h := H.getD 7 0 }
  let r := (sha2K.zip ws).foldl sha2Round init
  [(H.getD 0 0 + r.a) % 2 ^ 32, (H.getD 1 0 + r.b) % 2 ^ 32,
   (H.getD 2 0 + r.c) % 2 ^ 32, (H.getD 3 0 + r.d) % 2 ^ 32,
   (H.getD 4 0 + r.e) % 2 ^ 32, (H.getD 5 0 + r.f) % 2 ^ 32,
   (H.getD 6 0 + r.g) % 2 ^ 32, (H.getD 7 0 + r.h) % 2 ^ 32]

/-- SHA-256 digest (32 bytes) of a byte list. -/
def sha256 (msg : List Nat) : List Nat :=
  (((chunks64 (padMsg msg)).foldl sha2Compress sha2H0).map wordBytes).flatten

/-- HMAC-SHA256 (RFC 2104) of a message under a key, as 32 raw bytes. -/
def hmacSha256 (key msg : List Nat) : List Nat :=
  let k1 := if key.length > 64 then sha256 key else key
  let k0 := k1 ++ List.replicate (64 - k1.length) 0
  let ipad := k0.map (fun b => b ^^^ 0x36)
  let opad := k0.map (fun b => b ^^^ 0x5c)
  sha256 (opad ++ sha256 (ipad ++ msg))

/-! ### Hex, UTF-8 and the signature validator (`webhook-security.ts`) -/

/-- Lowercase hex digit for a value `< 16` (used by `digest('hex')`). -/
def hexDigitCh (n : Nat) : Char :=
  if n < 10 then Char.ofNat (48 + n) else Char.ofNat (87 + n)

/-- Lowercase hex encoding of a byte list (model of `digest('hex')`). -/
def bytesToHex (bs : List Nat) : String :=
  ⟨(bs.map (fun b => [hexDigitCh (b / 16 % 16), hexDigitCh (b % 16)])).flatten⟩

/-- Value of a hex digit character; accepts both cases, as Node's hex decoding
does. -/
def hexVal (c : Char) : Option Nat :=
  if '0' ≤ c ∧ c ≤ '9' then some (c.toNat - 48)
  else if 'a' ≤ c ∧ c ≤ 'f' then some (c.toNat - 87)
  else if 'A' ≤ c ∧ c ≤ 'F' then some (c.toNat - 55)
  else none

/-- Model of Node `Buffer.from(·, 'hex')`: decodes pairs of hex digits,
case-insensitively, truncating at the first invalid pair and dropping a
trailing odd digit. -/
def hexPairs : List Char → List Nat
  | c1 :: c2 :: rest =>
    match hexVal c1, hexVal c2 with
    | some h, some l => (h * 16 + l) :: hexPairs rest
    | _, _ => []
  | _ => []

/-- UTF-8 encoding of one character. -/
def utf8Char (c : Char) : List Nat :=
  let n := c.toNat
  if n < 0x80 then [n]
  else if n < 0x800 then
    [0xc0 ||| (n >>> 6), 0x80 ||| (n &&& 0x3f)]
  else if n < 0x10000 then
    [0xe0 ||| (n >>> 12), 0x80 ||| ((n >>> 6) &&& 0x3f), 0x80 ||| (n &&& 0x3f)]
  else
    [0xf0 ||| (n >>> 18), 0x80 ||| ((n >>> 12) &&& 0x3f),
     0x80 ||| ((n >>> 6) &&& 0x3f), 0x80 ||| (n &&& 0x3f)]

/-- UTF-8 encoding of a string (Node strings are hashed as UTF-8). -/
def utf8 (s : String) : List Nat :=
  (s.data.map utf8Char).flatten

/-- Whether `pat` is an initial segment of `l`
(model of `String.prototype.startsWith`). -/
def beginsWith : List Char → List Char → Bool
  | [], _ => true
  | _, [] => false
  | c :: cs, d :: ds => c = d && beginsWith cs ds

/-- `webhook-security.ts` lines 67-78: hand-rolled constant-time buffer
comparison — length check, then an OR-accumulation of bytewise XORs. -/
def xorAccL (r : Nat) : List (Nat × Nat) → Nat
  | [] => r
  | p :: ps => xorAccL (r ||| (p.1 ^^^ p.2)) ps

/-- `timingSafeEqual(a, b)` from `webhook-security.ts`. -/
def timingSafeEqual (a b : List Nat) : Bool :=
  if a.length ≠ b.length then false
  else decide (xorAccL 0 (a.zip b) = 0)

/-- `validateMetaWhatsAppSignature` from `webhook-security.ts` lines 24-61:
reject a missing or empty header (`if (!signature)`), reject a header without
the `sha256=` prefix, then compare `Buffer.from(header minus prefix, 'hex')`
against `Buffer.from(hex(HMAC_SHA256(appSecret, body)), 'hex')` with
`timingSafeEqual`. -/
def validateMetaWhatsAppSignature (appSecret : String) (signature : Option String)
    (body : String) : Bool :=
  match signature with
  | none => false
  | some sig =>
    if sig = "" then false
    else if ¬ beginsWith "sha256=".data sig.data then false
    else
      let receivedSignature := sig.data.drop 7
      let expectedSignature := bytesToHex (hmacSha256 (utf8 appSecret) (utf8 body))
      timingSafeEqual (hexPairs receivedSignature) (hexPairs expectedSignature.data)

/-- The canonical signature header the provider sends for body `B` under
secret `S`: `sha256=` followed by the lowercase hex HMAC digest. -/
def mkSigHeader (appSecret body : String) : String :=
  "sha256=" ++ bytesToHex (hmacSha256 (utf8 appSecret) (utf8 body))

/-! ### JS values (parsed JSON) and the JS operations the webhook code uses -/

/-- A parsed JSON value (`JSON.parse` never produces `undefined`; the absent
value arising from property lookups is modelled as `Option.none` around
`JVal`). -/
inductive JVal : Type
  | null
  | bool (b : Bool)
  | num (n : Int)
  | str (s : String)
  | arr (elems : List JVal)
  | obj (fields : List (String × JVal))

/-- Property lookup on a non-null value: object fields by name, `undefined`
(`none`) on everything else (primitives have no own properties used here). -/
def jsProp (v : JVal) (k : String) : Option JVal :=
  match v with
  | .obj fs => alookup k fs
  | _ => none

/-- `v.k` in JS: throws a `TypeError` on `null`, otherwise looks the
property up. -/
def prop (v : JVal) (k : String) : Except Unit (Option JVal) :=
  match v with
  | .null => .error ()
  | w => .ok (jsProp w k)

/-- `v.k` where `v` may also be `undefined` (which throws, like `null`). -/
def propO (v : Option JVal) (k : String) : Except Unit (Option JVal) :=
  match v with
  | none => .error ()
  | some w => prop w k

/-- Optional chaining `v?.k`: `undefined` when `v` is `null`/`undefined`,
otherwise a plain property lookup. -/
def optChain (v : Option JVal) (k : String) : Option JVal :=
  match v with
  | none => none
  | some .null => none
  | some w => jsProp w k

/-- JS truthiness of a possibly-`undefined` value. -/
def truthy (v : Option JVal) : Bool :=
  match v with
  | none => false
  | some .null => false
  | some (.bool b) => b
  | some (.num n) => decide (n ≠ 0)
  | some (.str s) => decide (s ≠ "")
  | some (.arr _) => true
  | some (.obj _) => true

/-- `for (const x of v)` over a value that is skipped when falsy (either via
`v || []` or via an `if (v)` guard in the source): yields the elements of an
array, the one-character strings of a string, and throws a `TypeError` on any
other truthy value (numbers, booleans, plain objects are not iterable). -/
def jsForOf (v : Option JVal) : Except Unit (List JVal) :=
  if truthy v = false then .ok []
  else
    match v with
    | some (.arr xs) => .ok xs
    | some (.str s) => .ok (s.data.map (fun c => .str (String.singleton c)))
    | _ => .error ()

/-- Leading integer of a string, JS `parseInt` style: skip whitespace, an
optional sign, then decimal digits; `none` (`NaN`) when no digit follows. -/
def parseIntStr (s : String) : Option Int :=
  let cs := s.data.dropWhile (fun c => c = ' ' ∨ c = '\t' ∨ c = '\n' ∨ c = '\r')
  let sgncs : Int × List Char :=
    match cs with
    | '-' :: rest => (-1, rest)
    | '+' :: rest => (1, rest)
    | _ => (1, cs)
  let ds := sgncs.2.takeWhile Char.isDigit
  if ds = [] then none
  else some (sgncs.1 * (ds.foldl (fun acc c => acc * 10 + (c.toNat - 48)) 0 : Nat))

/-- `parseInt(v, 10)` on a JS value, with `none` standing for `NaN`.
Numbers pass through, strings are parsed; the `String(·)` coercion of
booleans, `null`, `undefined` and plain objects yields no leading digits, so
those are `NaN`.  (The stringification of arrays, which no webhook field
exercises, is not modelled and also maps to `NaN`.) -/
def jsParseInt (v : Option JVal) : Option Int :=
  match v with
  | some (.num n) => some n
  | some (.str s) => parseIntStr s
  | _ => none

/-- JS `Map` key equality (SameValueZero) for the keys this program uses:
structural on primitives; composite values (objects/arrays) compare by
reference, and since every webhook delivery is a fresh `JSON.parse`, two
composite keys occurring at different times are never the same reference —
modelled by returning `false` on composites. -/
def jkeyEq (a b : Option JVal) : Bool :=
  match a, b with
  | none, none => true
  | some .null, some .null => true
  | some (.bool x), some (.bool y) => x == y
  | some (.num x), some (.num y) => x == y
  | some (.str x), some (.str y) => x == y
  | _, _ => false

/-- Lookup in a JS-keyed association list (model of
`phoneToConversationId.get`). -/
def alookupK {α : Type} (k : Option JVal) : List (Option JVal × α) → Option α
  | [] => none
  | p :: rest => if jkeyEq p.1 k then some p.2 else alookupK k rest

/-- Insertion in a JS-keyed association list (model of
`phoneToConversationId.set`). -/
def asetK {α : Type} (k : Option JVal) (v : α) : List (Option JVal × α) →
    List (Option JVal × α)
  | [] => [(k, v)]
  | p :: rest => if jkeyEq p.1 k then (k, v) :: rest else p :: asetK k v rest

/-- The key under which a plain string phone number is stored. -/
def strKey (p : String) : Option JVal := some (.str p)

/-! ### Conversation registry (`message-manager.ts` lines 24-31, 60-65,
160-192) -/

/-- Message role: the TS union `'claude' | 'user'`. -/
inductive Role : Type
  | claude
  | user
deriving DecidableEq

/-- One entry of a conversation's ordered message history.  The text is a
`JVal` because `handleIncomingMessage` can store a non-string extracted
payload; timestamps are JS numbers (`none` = `NaN`). -/
structure Msg : Type where
  role : Role
  text : JVal
  timestamp : Option Int

/-- `ConversationState` from `message-manager.ts` lines 24-31. -/
structure ConversationState : Type where
  conversationId : String
  userPhoneNumber : Option JVal
  messageHistory : List Msg
  startTime : Int
  lastMessageAt : Option Int
  active : Bool

/-- The two maps and the id counter of `MessageManager`
(`message-manager.ts` lines 61-65). -/
structure MMState : Type where
  activeConversations : List (String × ConversationState)
  phoneToConversationId : List (Option JVal × String)
  currentConversationId : Nat

/-- The conversation-creation tail of `getOrCreateConversation`
(`message-manager.ts` lines 174-191): mint
`conv-<++counter>-<Date.now()>`, store a fresh active record, map the phone
key to it. -/
def createConversation (phone : Option JVal) (now : Int) (s : MMState) :
    String × MMState :=
  let n := s.currentConversationId + 1
  let cid := "conv-" ++ toString n ++ "-" ++ toString now
  let st : ConversationState :=
    { conversationId := cid
      userPhoneNumber := phone
      messageHistory := []
      startTime := now
      lastMessageAt := some now
      active := true }
  (cid,
   { activeConversations := aset cid st s.activeConversations
     phoneToConversationId := asetK phone cid s.phoneToConversationId
     currentConversationId := n })

/-- `getOrCreateConversation` (`message-manager.ts` lines 163-192): reuse the
mapped conversation when the mapped id is truthy (a non-empty string) and its
record exists and is active; otherwise create.  `Date.now()` is the `now`
parameter. -/
def getOrCreateConversation (phone : Option JVal) (now : Int) (s : MMState) :
    String × MMState :=
  match alookupK phone s.phoneToConversationId with
  | some cid =>
    if cid = "" then createConversation phone now s
    else
      match alookup cid s.activeConversations with
      | some st => if st.active then (cid, s) else createConversation phone now s
      | none => createConversation phone now s
  | none => createConversation phone now s

/-- Append a message to a conversation's history and bump `lastMessageAt`
(the `state.messageHistory.push(...)` / `state.lastMessageAt = ...` pair).
The record is fetched with a non-null assertion (`get!`) in the source; it is
always present directly after `getOrCreateConversation` (proved below), so
the absent case never runs. -/
def pushHistory (cid : String) (m : Msg) (ts : Option Int) (s : MMState) : MMState :=
  { s with
    activeConversations :=
      aupdate cid
        (fun st => { st with messageHistory := st.messageHistory ++ [m], lastMessageAt := ts })
        s.activeConversations }

/-- `MessageManager.sendMessage` (`message-manager.ts` lines 122-151):
get-or-create the conversation for the configured user number, call the
provider (`sendResult` is the outcome of the external
`providers.whatsapp.sendMessage` call), and only on success append the
`claude`-role entry and update `lastMessageAt`; a provider failure is
re-thrown unchanged. -/
def sendMessage (s : MMState) (userPhoneNumber message : String) (now : Int)
    (sendResult : Except String String) : Except String (String × String) × MMState :=
  let r := getOrCreateConversation (strKey userPhoneNumber) now s
  match sendResult with
  | .error e => (.error e, r.2)
  | .ok messageId =>
    (.ok (r.1, messageId),
     pushHistory r.1 { role := .claude, text := .str message, timestamp := some now }
       (some now) r.2)

/-- `getConversationHistory` (`message-manager.ts` lines 380-383). -/
def getConversationHistory (s : MMState) (cid : String) : List Msg :=
  match alookup cid s.activeConversations with
  | some st => st.messageHistory
  | none => []

/-! ### Webhook event processing (`message-manager.ts` lines 197-375)

The running system couples the `MessageManager` state with the pending-reply
table, because `main` in `index.ts` installs an `onMessageReceived` callback
that resolves pending replies.  Each processing function returns the new
state together with a `Bool` that is `true` when a JS exception escaped
(mutations made before the throw persist, as they do in the source). -/

/-- Combined state of the running system. -/
structure SysState : Type where
  mm : MMState
  ps : PState

/-- Payload extraction of `handleIncomingMessage` (lines 327-335):
`message.type === 'text' && message.text?.body` wins, then
`message.type === 'button' && message.button?.text`; otherwise the message is
skipped as unsupported.  Truthiness means a message whose extracted payload
is the empty string is also skipped. -/
def extractText (message : JVal) : Option JVal :=
  match jsProp message "type" with
  | some (.str "text") =>
    if truthy (optChain (jsProp message "text") "body") then
      optChain (jsProp message "text") "body"
    else none
  | some (.str "button") =>
    if truthy (optChain (jsProp message "button") "text") then
      optChain (jsProp message "button") "text"
    else none
  | _ => none

/-- `handleIncomingMessage` (lines 317-362) followed by the MCP callback from
`index.ts` lines 79-98.

* reading `message.from` throws iff the message entry is `null`;
* an unsupported type (or falsy payload) skips the entry without failing;
* a non-string payload throws at the `text.substring(0, 50)` log call
  (line 337), before any state is touched;
* otherwise the conversation is got-or-created under the raw `from` value,
  the `user`-role entry is pushed (`markAsRead` failures are swallowed by the
  source and have no state effect), and the callback runs: it throws on a
  non-string `from` (`normalizePhoneNumber` calls `from.replace`), else it
  resolves any pending reply under the normalized sender. -/
def handleIncomingMessage (now : Int) (message : JVal) (s : SysState) :
    SysState × Bool :=
  match prop message "from" with
  | .error _ => (s, true)
  | .ok fromV =>
    let ts := (jsParseInt (jsProp message "timestamp")).map (fun n => n * 1000)
    match extractText message with
    | none => (s, false)
    | some textV =>
      match textV with
      | .str t =>
        let r := getOrCreateConversation fromV now s.mm
        let mm2 := pushHistory r.1 { role := .user, text := .str t, timestamp := ts } ts r.2
        match fromV with
        | some (.str f) => ({ mm := mm2, ps := pstep s.ps (.inbound f t) }, false)
        | _ => ({ mm := mm2, ps := s.ps }, true)
      | _ => (s, true)

/-- `handleMessageStatus` (lines 367-375) only logs; it throws iff the status
entry is `null` (reading `status.id`). -/
def statusThrew (st : JVal) : Bool :=
  match st with
  | .null => true
  | _ => false

/-- Run a handler over the elements of a `for ... of` loop, stopping at the
first thrown exception (whose state mutations persist). -/
def runList {α : Type} (f : α → SysState → SysState × Bool) :
    List α → SysState → SysState × Bool
  | [], s => (s, false)
  | x :: xs, s =>
    let r := f x s
    if r.2 then (r.1, true) else runList f xs r.1

/-- One element of the `entry.changes` loop (lines 294-310): read
`change.value` (throws on a `null` change), read `value.messages` (throws
when `value` is `undefined` or `null`), loop over the messages when truthy,
then likewise over `value.statuses`. -/
def processChange (now : Int) (change : JVal) (s : SysState) : SysState × Bool :=
  match prop change "value" with
  | .error _ => (s, true)
  | .ok valueV =>
    match propO valueV "messages" with
    | .error _ => (s, true)
    | .ok messagesV =>
      match jsForOf messagesV with
      | .error _ => (s, true)
      | .ok msgs =>
        let r := runList (handleIncomingMessage now) msgs s
        if r.2 then (r.1, true)
        else
          match propO valueV "statuses" with
          | .error _ => (r.1, true)
          | .ok statusesV =>
            match jsForOf statusesV with
            | .error _ => (r.1, true)
            | .ok sts => (r.1, sts.any statusThrew)

/-- One element of the `event.entry` loop (lines 293-311): `entry.changes`
throws on a `null` entry; `entry.changes || []` then drives the inner loop. -/
def processEntry (now : Int) (entry : JVal) (s : SysState) : SysState × Bool :=
  match prop entry "changes" with
  | .error _ => (s, true)
  | .ok changesV =>
    match jsForOf changesV with
    | .error _ => (s, true)
    | .ok chs => runList (processChange now) chs s

/-- `processWhatsAppEvent` (lines 285-312): ignore events whose `object` tag
is not `whatsapp_business_account` (reading the tag throws on a `null`
event), otherwise loop over `event.entry || []`. -/
def processWhatsAppEvent (now : Int) (event : JVal) (s : SysState) :
    SysState × Bool :=
  match prop event "object" with
  | .error _ => (s, true)
  | .ok objV =>
    match objV with
    | some (.str tag) =>
      if tag = "whatsapp_business_account" then
        match prop event "entry" with
        | .error _ => (s, true)
        | .ok entryV =>
          match jsForOf entryV with
          | .error _ => (s, true)
          | .ok entries => runList (processEntry now) entries s
      else (s, false)
    | _ => (s, false)

/-- HTTP response of the webhook POST handler. -/
inductive HttpStatus : Type
  | ok200
  | badRequest400
  | unauthorized401
deriving DecidableEq

/-- The POST branch of `handleWhatsAppWebhook` (`message-manager.ts` lines
207-237): reject with 401 before anything else when the signature check
fails; otherwise parse the body (`parsed` is the outcome of the external
`JSON.parse(body)`, `none` when it threw) and process the event, answering
400 when parsing or processing threw and 200 otherwise. -/
def handleWebhookPost (appSecret : String) (signature : Option String)
    (body : String) (parsed : Option JVal) (now : Int) (s : SysState) :
    HttpStatus × SysState :=
  if validateMetaWhatsAppSignature appSecret signature body = false then
    (.unauthorized401, s)
  else
    match parsed with
    | none => (.badRequest400, s)
    | some event =>
      let r := processWhatsAppEvent now event s
      if r.2 then (.badRequest400, r.1) else (.ok200, r.1)

/-! ### The `send_message` tool result (`index.ts` lines 244-294) -/

/-- The JSON payload the `send_message` tool call answers with after a
`wait_for_reply` wait, together with the MCP `isError` flag (set only by the
outer catch for thrown errors; the timeout path returns normally). -/
structure SendToolReply : Type where
  success : Bool
  conversationId : String
  messageId : String
  userReply : Option String
  status : String
  error : Option String
  isError : Bool
deriving DecidableEq

/-- How the tool call renders the outcome of the reply-wait promise
(`index.ts` lines 264-294): fulfilment yields the reply text, rejection by
the timeout is caught and yields a success result with a timeout status. -/
def waitForReplyResult (conversationId messageId : String) :
    POutcome → SendToolReply
  | .reply t =>
    { success := true
      conversationId := conversationId
      messageId := messageId
      userReply := some t
      status := "Message sent and reply received"
      error := none
      isError := false }
  | .timeout =>
    { success := true
      conversationId := conversationId
      messageId := messageId
      userReply := none
      status := "Message sent but no reply received"
      error := some "Timeout waiting for user reply"
      isError := false }

/-! ### Well-shapedness of a parsed webhook event

`processWhatsAppEvent` throws a `TypeError` on various malformed (but
JSON-parseable) payloads.  `wsEvent` carves out the events it processes
without throwing: `null` entries are absent, every truthy `messages`,
`statuses`, `entry` and `changes` field is iterable, and every message whose
payload would reach the MCP callback has a string payload and a string
sender. -/

/-- Whether a possibly-`undefined` value is a string. -/
def isStrV (v : Option JVal) : Bool :=
  match v with
  | some (.str _) => true
  | _ => false

/-- A falsy-or-iterable value all of whose iterates satisfy `p`. -/
def wsFor (v : Option JVal) (p : JVal → Bool) : Bool :=
  match jsForOf v with
  | .error _ => false
  | .ok xs => xs.all p

/-- A message entry that `handleIncomingMessage` survives: reading `from`
does not throw, and — when a payload is extracted at all — both the payload
and the sender are strings (otherwise `text.substring` respectively
`from.replace` throws). -/
def wsMsg (m : JVal) : Bool :=
  match prop m "from" with
  | .error _ => false
  | .ok fromV =>
    match extractText m with
    | none => true
    | some tv => isStrV (some tv) && isStrV fromV

/-- A status entry that `handleMessageStatus` survives. -/
def wsStatus (st : JVal) : Bool := !statusThrew st

/-- A change entry that `processChange` survives (mirrors its match
structure). -/
def wsChange (c : JVal) : Bool :=
  match prop c "value" with
  | .error _ => false
  | .ok valueV =>
    match propO valueV "messages" with
    | .error _ => false
    | .ok messagesV =>
      wsFor messagesV wsMsg &&
        (match propO valueV "statuses" with
         | .error _ => false
         | .ok statusesV => wsFor statusesV wsStatus)

/-- An entry that `processEntry` survives. -/
def wsEntry (e : JVal) : Bool :=
  match prop e "changes" with
  | .error _ => false
  | .ok changesV => wsFor changesV wsChange

/-- An event that `processWhatsAppEvent` survives. -/
def wsEvent (ev : JVal) : Bool :=
  match prop ev "object" with
  | .error _ => false
  | .ok (some (.str tag)) =>
    if tag = "whatsapp_business_account" then
      match prop ev "entry" with
      | .error _ => false
      | .ok entryV => wsFor entryV wsEntry
    else true
  | .ok _ => true

/-- The shape of a plain inbound text message as delivered by the provider:
`\x7b from, id, timestamp, type: 'text', text: \x7b body \x7d \x7d`. -/
def mkTextMsg (from_ id_ tsStr text : String) : JVal :=
  .obj [("from", .str from_), ("id", .str id_), ("timestamp", .str tsStr),
        ("type", .str "text"), ("text", .obj [("body", .str text)])]

/-! ### Auxiliary predicates used by the trace theorems -/

/-- Waiter `w` does not occur as a value of the pending map (it is not the
current occupant of any key). -/
def NotPendingVal (w : Nat) (s : PState) : Prop :=
  ∀ p ∈ s.pending, p.2 ≠ w

/-- No timer for waiter `w` is armed. -/
def NoTimer (w : Nat) (s : PState) : Prop :=
  ∀ p ∈ s.armed, p.1 ≠ w

/-- Waiter `w` is fresh: unknown to the table, the timers and the settled
map. -/
def FreshWaiter (w : Nat) (s : PState) : Prop :=
  NotPendingVal w s ∧ NoTimer w s ∧ alookup w s.settled = none

/-- `es` contains no `register` event for waiter `w` (waiter ids are unique:
each `send_message` call creates a fresh promise). -/
def NoRegister (w : Nat) (es : List PEvent) : Prop :=
  ∀ k, PEvent.register w k ∉ es

/-- The invariant of a registered-but-overwritten (or still current) waiter
`w` whose only armed timer captured key `k`: `w` occupies no table entry, its
timer is armed (under `k` and no other key), and its promise is unsettled. -/
def TimerInv (w : Nat) (k : String) (s : PState) : Prop :=
  NotPendingVal w s ∧ (w, k) ∈ s.armed ∧ (∀ kk, (w, kk) ∈ s.armed → kk = k) ∧
    alookup w s.settled = none

/-- Number of positions at which two strings differ (both strings of equal
length); used to exhibit single-byte modifications. -/
def diffCount (a b : String) : Nat :=
  ((a.data.zip b.data).filter (fun p => decide (p.1 ≠ p.2))).length

/-! ## Lemmas about the association-list primitives -/

theorem alookup_aset_self {κ α : Type} [DecidableEq κ] (k : κ) (v : α)
    (l : List (κ × α)) : alookup k (aset k v l) = some v := by
  induction l with
  | nil => simp [alookup, aset]
  | cons p rest ih =>
    by_cases h : p.1 = k
    · simp [alookup, aset, h]
    · simp [alookup, aset, h, ih]

theorem alookup_aset_ne {κ α : Type} [DecidableEq κ] {k k2 : κ} (v : α)
    (l : List (κ × α)) (h : k2 ≠ k) :
    alookup k2 (aset k v l) = alookup k2 l := by
  have hkk2 : ¬ (k = k2) := fun hh => h hh.symm
  induction l with
  | nil => simp [alookup, aset, hkk2]
  | cons p rest ih =>
    by_cases hp : p.1 = k
    · have hp2 : ¬ (p.1 = k2) := by rw [hp]; exact hkk2
      simp [aset, hp, alookup, hkk2, hp2]
    · by_cases hp2 : p.1 = k2
      · simp [aset, hp, alookup, hp2, h]
      · simp [aset, hp, alookup, hp2, h, ih]

theorem alookup_aerase_self {κ α : Type} [DecidableEq κ] (k : κ)
    (l : List (κ × α)) : alookup k (aerase k l) = none := by
  induction l with
  | nil => simp [alookup, aerase]
  | cons p rest ih =>
    by_cases h : p.1 = k
    · simpa [aerase, h] using ih
    · simpa [aerase, alookup, h] using ih

theorem alookup_aerase_ne {κ α : Type} [DecidableEq κ] {k k2 : κ}
    (l : List (κ × α)) (h : k2 ≠ k) :
    alookup k2 (aerase k l) = alookup k2 l := by
  have hk2 : ¬ (k = k2) := fun hh => h hh.symm
  induction l with
  | nil => simp [aerase]
  | cons p rest ih =>
    by_cases hp : p.1 = k
    · simpa [aerase, alookup, hp, hk2, h] using ih
    · by_cases hp2 : p.1 = k2
      · simp [aerase, alookup, hp, hp2, hk2, h]
      · simpa [aerase, alookup, hp, hp2, hk2, h] using ih

theorem alookup_mem {κ α : Type} [DecidableEq κ] {k : κ} {v : α}
    {l : List (κ × α)} (h : alookup k l = some v) : (k, v) ∈ l := by
  induction l with
  | nil => simp [alookup] at h
  | cons p rest ih =>
    by_cases hp : p.1 = k
    · simp only [alookup, if_pos hp, Option.some.injEq] at h
      have hpv : p = (k, v) := by
        calc p = (p.1, p.2) := rfl
          _ = (k, v) := by rw [hp, h]
      rw [hpv]
      exact List.mem_cons_self _ _
    · simp only [alookup, if_neg hp] at h
      exact List.mem_cons_of_mem _ (ih h)

theorem mem_aset {κ α : Type} [DecidableEq κ] {k : κ} {v : α}
    {l : List (κ × α)} {p : κ × α} (h : p ∈ aset k v l) :
    p = (k, v) ∨ p ∈ l := by
  induction l with
  | nil => simpa [aset] using h
  | cons q rest ih =>
    by_cases hq : q.1 = k
    · simp only [aset, if_pos hq, List.mem_cons] at h
      rcases h with h | h
      · exact Or.inl h
      · exact Or.inr (List.mem_cons_of_mem _ h)
    · simp only [aset, if_neg hq, List.mem_cons] at h
      rcases h with h | h
      · exact Or.inr (by rw [h]; exact List.mem_cons_self _ _)
      · rcases ih h with h2 | h2
        · exact Or.inl h2
        · exact Or.inr (List.mem_cons_of_mem _ h2)

theorem mem_aerase {κ α : Type} [DecidableEq κ] {k : κ}
    {l : List (κ × α)} {p : κ × α} (h : p ∈ aerase k l) : p ∈ l ∧ p.1 ≠ k := by
  induction l with
  | nil => simp [aerase] at h
  | cons q rest ih =>
    by_cases hq : q.1 = k
    · simp only [aerase, if_pos hq] at h
      exact ⟨List.mem_cons_of_mem _ (ih h).1, (ih h).2⟩
    · simp only [aerase, if_neg hq, List.mem_cons] at h
      rcases h with h | h
      · refine ⟨by rw [h]; exact List.mem_cons_self _ _, ?_⟩
        rw [h]; exact hq
      · exact ⟨List.mem_cons_of_mem _ (ih h).1, (ih h).2⟩

theorem alookup_aupdate_self {κ α : Type} [DecidableEq κ] (k : κ) (f : α → α)
    (l : List (κ × α)) :
    alookup k (aupdate k f l) = (alookup k l).map f := by
  induction l with
  | nil => simp [alookup, aupdate]
  | cons p rest ih =>
    simp only [aupdate] at ih ⊢
    by_cases hp : p.1 = k
    · simp [alookup, hp]
    · simp [alookup, hp, ih]

theorem alookup_aupdate_ne {κ α : Type} [DecidableEq κ] {k k2 : κ} (f : α → α)
    (l : List (κ × α)) (h : k2 ≠ k) :
    alookup k2 (aupdate k f l) = alookup k2 l := by
  have hk2 : ¬ (k = k2) := fun hh => h hh.symm
  induction l with
  | nil => simp [alookup, aupdate]
  | cons p rest ih =>
    simp only [aupdate] at ih ⊢
    by_cases hp : p.1 = k
    · simp [alookup, hp, hk2, h, ih]
    · by_cases hp2 : p.1 = k2
      · simp [alookup, hp, hp2, hk2, h]
      · simp [alookup, hp, hp2, hk2, h, ih]

theorem alookup_settle_of_none {w : Nat} {m : List (Nat × POutcome)}
    (o : POutcome) (h : alookup w m = none) :
    alookup w (settle w o m) = some o := by
  simp [settle, h, alookup_aset_self]

theorem alookup_settle_ne {w w2 : Nat} {m : List (Nat × POutcome)}
    (o : POutcome) (h : w2 ≠ w) :
    alookup w2 (settle w o m) = alookup w2 m := by
  unfold settle
  match hm : alookup w m with
  | some _ => rfl
  | none => exact alookup_aset_ne o m h

theorem alookup_settle_preserve {w w2 : Nat} {o : POutcome}
    {m : List (Nat × POutcome)} (o2 : POutcome) (h : alookup w m = some o) :
    alookup w (settle w2 o2 m) = some o := by
  by_cases hw : w = w2
  · subst hw
    simp [settle, h]
  · rw [alookup_settle_ne o2 hw]
    exact h

theorem aset_aset {κ α : Type} [DecidableEq κ] (k : κ) (v1 v2 : α)
    (l : List (κ × α)) : aset k v2 (aset k v1 l) = aset k v2 l := by
  induction l with
  | nil => simp [aset]
  | cons p rest ih =>
    by_cases hp : p.1 = k
    · simp [aset, hp]
    · simp [aset, hp, ih]

/-! ## Lemmas about the pending-reply state machine -/

/-- A settled promise keeps its outcome across every event: resolution and
expiry both go through `settle`, which never overwrites. -/
theorem settled_stable_step {w : Nat} {o : POutcome} {s : PState}
    (h : alookup w s.settled = some o) (e : PEvent) :
    alookup w (pstep s e).settled = some o := by
  cases e with
  | register w2 k => simpa [pstep] using h
  | inbound f t =>
    simp only [pstep]
    cases hm : alookup (normalizePhoneNumber f) s.pending with
    | none => simpa using h
    | some w2 => simpa using alookup_settle_preserve (POutcome.reply t) h
  | fire w2 k =>
    simp only [pstep]
    by_cases harm : (w2, k) ∈ s.armed
    · rw [if_pos harm]
      simpa using alookup_settle_preserve POutcome.timeout h
    · rw [if_neg harm]
      exact h

theorem settled_stable_run {w : Nat} {o : POutcome} {s : PState}
    (h : alookup w s.settled = some o) (es : List PEvent) :
    alookup w (prun s es).settled = some o := by
  induction es generalizing s with
  | nil => exact h
  | cons e rest ih => exact ih (settled_stable_step h e)

/-- `TimerInv` is preserved by every event other than a fresh registration of
the same waiter (waiter ids are unique) and the firing of its own timer. -/
theorem timerinv_step {w1 : Nat} {k : String} {s : PState} {e : PEvent}
    (hinv : TimerInv w1 k s) (hreg : ∀ kk, e ≠ .register w1 kk)
    (hfire : e ≠ .fire w1 k) : TimerInv w1 k (pstep s e) := by
  obtain ⟨hp, harm, huniq, hset⟩ := hinv
  cases e with
  | register w kk =>
    have hw : w ≠ w1 := fun hh => hreg kk (by rw [hh])
    refine ⟨fun p hmem => ?_, List.mem_cons_of_mem _ harm, fun kk2 hmem => ?_, hset⟩
    · rcases mem_aset hmem with h | h
      · rw [h]; exact hw
      · exact hp p h
    · rcases List.mem_cons.mp hmem with h | h
      · exact absurd (congrArg Prod.fst h).symm hw
      · exact huniq kk2 h
  | inbound f t =>
    simp only [pstep]
    cases hm : alookup (normalizePhoneNumber f) s.pending with
    | none => exact ⟨hp, harm, huniq, hset⟩
    | some w =>
      have hw : w ≠ w1 := hp _ (alookup_mem hm)
      refine ⟨fun p hmem => ?_, ?_, fun kk2 hmem => ?_, ?_⟩
      · exact hp p (mem_aerase hmem).1
      · exact List.mem_filter.mpr ⟨harm, decide_eq_true (fun hh => hw hh.symm)⟩
      · exact huniq kk2 (List.mem_filter.mp hmem).1
      · rw [alookup_settle_ne _ (fun hh => hw hh.symm)]
        exact hset
  | fire w kk =>
    simp only [pstep]
    by_cases harm2 : (w, kk) ∈ s.armed
    · have hw : w ≠ w1 := by
        intro hh
        subst hh
        exact hfire (by rw [huniq kk harm2])
      rw [if_pos harm2]
      refine ⟨fun p hmem => ?_, ?_, fun kk2 hmem => ?_, ?_⟩
      · exact hp p (mem_aerase hmem).1
      · refine List.mem_filter.mpr ⟨harm, decide_eq_true (fun hh => ?_)⟩
        exact hw (congrArg Prod.fst hh).symm
      · exact huniq kk2 (List.mem_filter.mp hmem).1
      · rw [alookup_settle_ne _ (fun hh => hw hh.symm)]
        exact hset
    · rw [if_neg harm2]
      exact ⟨hp, harm, huniq, hset⟩

theorem timerinv_run {w1 : Nat} {k : String} (es : List PEvent) {s : PState}
    (hinv : TimerInv w1 k s) (hreg : NoRegister w1 es)
    (hfire : PEvent.fire w1 k ∉ es) : TimerInv w1 k (prun s es) := by
  induction es generalizing s with
  | nil => exact hinv
  | cons e rest ih =>
    have h1 : TimerInv w1 k (pstep s e) :=
      timerinv_step hinv
        (fun kk hh => hreg kk (by rw [hh]; exact List.mem_cons_self _ _))
        (fun hh => hfire (by rw [hh]; exact List.mem_cons_self _ _))
    exact ih h1 (fun kk hh => hreg kk (List.mem_cons_of_mem _ hh))
      (fun hh => hfire (List.mem_cons_of_mem _ hh))

/-- Firing the armed timer of an unsettled waiter settles it with the timeout
outcome. -/
theorem fire_settles_timeout {w : Nat} {k : String} {s : PState}
    (harm : (w, k) ∈ s.armed) (hset : alookup w s.settled = none) :
    alookup w (pstep s (.fire w k)).settled = some POutcome.timeout := by
  simp only [pstep, if_pos harm]
  exact alookup_settle_of_none _ hset

/-- An inbound message whose normalized sender is the key of a waiting entry
resolves exactly that entry. -/
theorem pstep_inbound_hit {s : PState} {f : String} {w : Nat} (t : String)
    (h : alookup (normalizePhoneNumber f) s.pending = some w) :
    pstep s (.inbound f t)
      = { pending := aerase (normalizePhoneNumber f) s.pending
          armed := s.armed.filter (fun p => decide (p.1 ≠ w))
          settled := settle w (.reply t) s.settled } := by
  simp [pstep, h]

/-- An inbound message with no waiting entry under its normalized sender is a
silent no-op. -/
theorem pstep_inbound_miss {s : PState} {f : String} (t : String)
    (h : alookup (normalizePhoneNumber f) s.pending = none) :
    pstep s (.inbound f t) = s := by
  simp [pstep, h]

/-- An armed timer firing deletes its captured key unconditionally and
rejects its waiter. -/
theorem pstep_fire_armed {s : PState} {w : Nat} {k : String}
    (h : (w, k) ∈ s.armed) :
    pstep s (.fire w k)
      = { pending := aerase k s.pending
          armed := s.armed.filter (fun p => decide (p ≠ (w, k)))
          settled := settle w .timeout s.settled } := by
  simp [pstep, h]

/-! ## Claim theorems -/

/-- C5: registering a reply-wait for key `k` and immediately resolving it via
an inbound message whose normalized sender is `k` makes the original waiter
receive exactly the inbound text as a successful resolution, and afterwards
no entry for `k` remains in the table; resolving a key with no entry is a
silent no-op that changes nothing. -/
theorem register_then_immediate_resolve (s0 : PState) (w : Nat) (k b t : String)
    (hb : normalizePhoneNumber b = k) (hw : alookup w s0.settled = none) :
    alookup w (pstep (pstep s0 (.register w k)) (.inbound b t)).settled
        = some (POutcome.reply t) ∧
    alookup k (pstep (pstep s0 (.register w k)) (.inbound b t)).pending = none ∧
    (∀ (s : PState) (b2 t2 : String),
      alookup (normalizePhoneNumber b2) s.pending = none →
      pstep s (.inbound b2 t2) = s) := by
  have hlook : alookup (normalizePhoneNumber b)
      (pstep s0 (.register w k)).pending = some w := by
    rw [hb]
    exact alookup_aset_self k w s0.pending
  rw [pstep_inbound_hit t hlook]
  refine ⟨alookup_settle_of_none _ hw, ?_, fun s b2 t2 h => pstep_inbound_miss t2 h⟩
  show alookup k (aerase (normalizePhoneNumber b) (aset k w s0.pending)) = none
  rw [hb]
  exact alookup_aerase_self k (aset k w s0.pending)

/-- Witness for C5 at a concrete table state, key, sender and text. -/
theorem register_then_immediate_resolve_witness :
    alookup 0 (pstep (pstep ⟨[], [], []⟩ (.register 0 "15551234567"))
        (.inbound "+1 555-123-4567" "ok")).settled = some (POutcome.reply "ok") :=
  (register_then_immediate_resolve ⟨[], [], []⟩ 0 "15551234567" "+1 555-123-4567"
    "ok" (by decide) rfl).1

/-- C2: a second registration for the same key replaces the first in the
table without clearing the first registration's timer; along any further
trace that registers only fresh waiters and in which the first timer has not
yet fired, the first waiter is never resolved with a reply and is still
unsettled; firing its own timer then settles it with the timeout outcome,
once and for all (every later trace observes the same timeout outcome). -/
theorem overwritten_registration_times_out (s0 : PState) (w1 w2 : Nat)
    (k : String) (tr : List PEvent) (hne : w1 ≠ w2)
    (hfresh : FreshWaiter w1 s0) (hreg : NoRegister w1 tr)
    (hfire : PEvent.fire w1 k ∉ tr) :
    let s2 := pstep (pstep s0 (.register w1 k)) (.register w2 k)
    let sT := prun s2 tr
    alookup k s2.pending = some w2 ∧
    (w1, k) ∈ s2.armed ∧
    (∀ t, alookup w1 sT.settled ≠ some (POutcome.reply t)) ∧
    ((w1, k) ∈ sT.armed ∧ alookup w1 sT.settled = none) ∧
    alookup w1 (pstep sT (.fire w1 k)).settled = some POutcome.timeout ∧
    (∀ tr2, alookup w1 (prun (pstep sT (.fire w1 k)) tr2).settled
      = some POutcome.timeout) := by
  intro s2 sT
  obtain ⟨hp0, ht0, hs0⟩ := hfresh
  have hpend2 : s2.pending = aset k w2 s0.pending := by
    show aset k w2 (aset k w1 s0.pending) = _
    exact aset_aset k w1 w2 s0.pending
  have hinv2 : TimerInv w1 k s2 := by
    refine ⟨?_, ?_, ?_, hs0⟩
    · intro p hmem
      rw [hpend2] at hmem
      rcases mem_aset hmem with h | h
      · rw [h]
        exact fun hh => hne hh.symm
      · exact hp0 p h
    · show (w1, k) ∈ (w2, k) :: (w1, k) :: s0.armed
      exact List.mem_cons_of_mem _ (List.mem_cons_self _ _)
    · intro kk hmem
      rcases List.mem_cons.mp hmem with h | h
      · exact absurd (congrArg Prod.fst h) hne
      · rcases List.mem_cons.mp h with h2 | h2
        · exact congrArg Prod.snd h2
        · exact absurd rfl (ht0 _ h2)
  obtain ⟨hpT, harmT, huniqT, hsetT⟩ := timerinv_run tr hinv2 hreg hfire
  have hfireT : alookup w1 (pstep sT (.fire w1 k)).settled = some POutcome.timeout :=
    fire_settles_timeout harmT hsetT
  refine ⟨?_, ?_, ?_, ⟨harmT, hsetT⟩, hfireT, fun tr2 => settled_stable_run hfireT tr2⟩
  · rw [hpend2]
    exact alookup_aset_self _ _ _
  · exact List.mem_cons_of_mem _ (List.mem_cons_self _ _)
  · intro t hcontra
    rw [hsetT] at hcontra
    exact Option.noConfusion hcontra

/-- Witness for C2: two registrations for the same number, an inbound reply
(which resolves only the second waiter), then the first timer fires and the
first waiter times out. -/
theorem overwritten_registration_times_out_witness :
    alookup 0 (pstep (prun (pstep (pstep ⟨[], [], []⟩ (.register 0 "15551234567"))
        (.register 1 "15551234567")) [.inbound "+1 555 123 4567" "hi"])
        (.fire 0 "15551234567")).settled = some POutcome.timeout := by
  have h := overwritten_registration_times_out ⟨[], [], []⟩ 0 1 "15551234567"
    [.inbound "+1 555 123 4567" "hi"] (by decide)
    ⟨fun p h => absurd h (List.not_mem_nil p),
     fun p h => absurd h (List.not_mem_nil p), rfl⟩
    (fun kk hh => by simp at hh) (by decide)
  exact h.2.2.2.2.1

/-- C9: the timeout handler deletes the table entry for its key
unconditionally, so after a second registration overwrites the first, the
firing of the first (stale) timer removes the second waiter's entry; any
inbound reply for that number afterwards resolves no waiter (the state is
unchanged), and the second waiter — still armed and unsettled — can
terminate only via its own timeout, which settles it with the timeout
outcome. -/
theorem stale_timer_orphans_second_waiter (s0 : PState) (w1 w2 : Nat)
    (k : String) (tr : List PEvent) (hne : w1 ≠ w2)
    (hf1 : FreshWaiter w1 s0) (hf2 : FreshWaiter w2 s0)
    (hreg2 : NoRegister w2 tr) (hfire2 : PEvent.fire w2 k ∉ tr) :
    let s3 := pstep (pstep (pstep s0 (.register w1 k)) (.register w2 k))
      (.fire w1 k)
    alookup k s3.pending = none ∧
    (∀ b t, normalizePhoneNumber b = k → pstep s3 (.inbound b t) = s3) ∧
    (w2, k) ∈ s3.armed ∧
    (∀ t, alookup w2 (prun s3 tr).settled ≠ some (POutcome.reply t)) ∧
    alookup w2 (pstep (prun s3 tr) (.fire w2 k)).settled
      = some POutcome.timeout := by
  intro s3
  obtain ⟨hp1, ht1, hs1⟩ := hf1
  obtain ⟨hp2, ht2, hs2⟩ := hf2
  have harm1 : (w1, k) ∈ (pstep (pstep s0 (.register w1 k))
      (.register w2 k)).armed := by
    show (w1, k) ∈ (w2, k) :: (w1, k) :: s0.armed
    exact List.mem_cons_of_mem _ (List.mem_cons_self _ _)
  have hpend2 : (pstep (pstep s0 (.register w1 k)) (.register w2 k)).pending
      = aset k w2 s0.pending := by
    show aset k w2 (aset k w1 s0.pending) = _
    exact aset_aset k w1 w2 s0.pending
  have hs3 : s3 =
      { pending := aerase k (aset k w2 s0.pending),
        armed := ((w2, k) :: (w1, k) :: s0.armed).filter
          (fun p => decide (p ≠ (w1, k))),
        settled := settle w1 .timeout s0.settled } := by
    show pstep _ (.fire w1 k) = _
    rw [pstep_fire_armed harm1, hpend2]
    rfl
  have hnone : alookup k s3.pending = none := by
    rw [hs3]
    exact alookup_aerase_self _ _
  have harm2 : (w2, k) ∈ s3.armed := by
    rw [hs3]
    refine List.mem_filter.mpr ⟨List.mem_cons_self _ _, decide_eq_true fun hh => ?_⟩
    exact hne (congrArg Prod.fst hh).symm
  have hinv3 : TimerInv w2 k s3 := by
    refine ⟨?_, harm2, ?_, ?_⟩
    · intro p hmem
      rw [hs3] at hmem
      obtain ⟨hmem2, hne_k⟩ := mem_aerase hmem
      rcases mem_aset hmem2 with h | h
      · exact absurd (congrArg Prod.fst h) hne_k
      · exact hp2 p h
    · intro kk hmem
      rw [hs3] at hmem
      rcases List.mem_cons.mp (List.mem_filter.mp hmem).1 with h | h
      · exact congrArg Prod.snd h
      · rcases List.mem_cons.mp h with h2 | h2
        · exact absurd (congrArg Prod.fst h2).symm hne
        · exact absurd rfl (ht2 _ h2)
    · rw [hs3]
      show alookup w2 (settle w1 .timeout s0.settled) = none
      rw [alookup_settle_ne _ (fun hh => hne hh.symm)]
      exact hs2
  obtain ⟨hpT, harmT, huniqT, hsetT⟩ := timerinv_run tr hinv3 hreg2 hfire2
  refine ⟨hnone, ?_, harm2, ?_, fire_settles_timeout harmT hsetT⟩
  · intro b t hb
    apply pstep_inbound_miss
    rw [hb]
    exact hnone
  · intro t hcontra
    rw [hsetT] at hcontra
    exact Option.noConfusion hcontra

/-- Witness for C9: after the stale timer fires, the key is gone, an inbound
reply is a no-op, and the second waiter times out via its own timer. -/
theorem stale_timer_orphans_second_waiter_witness :
    alookup 1 (pstep (prun (pstep (pstep (pstep ⟨[], [], []⟩
        (.register 0 "15551234567")) (.register 1 "15551234567"))
        (.fire 0 "15551234567")) []) (.fire 1 "15551234567")).settled
      = some POutcome.timeout := by
  have h := stale_timer_orphans_second_waiter ⟨[], [], []⟩ 0 1 "15551234567" []
    (by decide)
    ⟨fun p h => absurd h (List.not_mem_nil p),
     fun p h => absurd h (List.not_mem_nil p), rfl⟩
    ⟨fun p h => absurd h (List.not_mem_nil p),
     fun p h => absurd h (List.not_mem_nil p), rfl⟩
    (fun kk hh => absurd hh (List.not_mem_nil _))
    (List.not_mem_nil _)
  exact h.2.2.2.2

/-- C7: when the pending entry is resolved before the deadline the tool call
returns the reply text as a success result, and when the timeout fires first
it returns a success result carrying the timeout indicator rather than a
fatal error; both outcomes report the send as successful and neither sets
the MCP error flag. -/
theorem wait_outcome_always_success (s : PState) (w : Nat)
    (k b t cid mid : String) (hb : normalizePhoneNumber b = k)
    (hpend : alookup k s.pending = some w) (hw : alookup w s.settled = none) :
    (alookup w (pstep s (.inbound b t)).settled = some (POutcome.reply t) ∧
      waitForReplyResult cid mid (POutcome.reply t) =
        { success := true, conversationId := cid, messageId := mid,
          userReply := some t, status := "Message sent and reply received",
          error := none, isError := false }) ∧
    ((w, k) ∈ s.armed →
      alookup w (pstep s (.fire w k)).settled = some POutcome.timeout) ∧
    (waitForReplyResult cid mid POutcome.timeout =
      { success := true, conversationId := cid, messageId := mid,
        userReply := none, status := "Message sent but no reply received",
        error := some "Timeout waiting for user reply", isError := false }) ∧
    (∀ o, (waitForReplyResult cid mid o).success = true ∧
      (waitForReplyResult cid mid o).isError = false) := by
  refine ⟨⟨?_, rfl⟩, fun harm => fire_settles_timeout harm hw, rfl, fun o => ?_⟩
  · rw [pstep_inbound_hit t (by rw [hb]; exact hpend)]
    exact alookup_settle_of_none _ hw
  · cases o <;> exact ⟨rfl, rfl⟩

/-- Witness for C7 at a concrete waiting state and concrete outcomes. -/
theorem wait_outcome_always_success_witness :
    alookup 0 (pstep ⟨[("15551234567", 0)], [(0, "15551234567")], []⟩
        (.inbound "+1 555 123 4567" "yes")).settled
      = some (POutcome.reply "yes") ∧
    (waitForReplyResult "conv-1-0" "wamid.1" POutcome.timeout).success = true := by
  have h := wait_outcome_always_success ⟨[("15551234567", 0)], [(0, "15551234567")], []⟩
    0 "15551234567" "+1 555 123 4567" "yes" "conv-1-0" "wamid.1"
    (by decide) (by decide) rfl
  exact ⟨h.1.1, (h.2.2.2 POutcome.timeout).1⟩

/-! ## Lemmas about the conversation registry -/

theorem jkeyEq_strKey (p : String) : jkeyEq (strKey p) (strKey p) = true := by
  simp [jkeyEq, strKey]

theorem alookupK_asetK_self {α : Type} {k : Option JVal} (v : α)
    (l : List (Option JVal × α)) (hk : jkeyEq k k = true) :
    alookupK k (asetK k v l) = some v := by
  induction l with
  | nil => simp [alookupK, asetK, hk]
  | cons p rest ih =>
    by_cases hp : jkeyEq p.1 k = true
    · simp [alookupK, asetK, hp, hk]
    · simp only [asetK]
      rw [if_neg (by simpa using hp)]
      simp [alookupK, hp, ih]

theorem conv_cid_ne_empty (a b : String) : ("conv-" ++ a ++ "-" ++ b) ≠ "" := by
  intro hh
  have hlen := congrArg String.length hh
  simp only [String.length_append] at hlen
  rw [show ("conv-" : String).length = 5 from rfl,
    show ("-" : String).length = 1 from rfl,
    show ("" : String).length = 0 from rfl] at hlen
  omega

/-- Directly after a creation, the phone key maps to the new id, the new id
maps to the new record, and the record is active; so a second
`getOrCreateConversation` reuses it. -/
theorem getOrCreate_after_create (phone : Option JVal) (now2 now1 : Int)
    (s : MMState) (hk : jkeyEq phone phone = true) :
    getOrCreateConversation phone now2 (createConversation phone now1 s).2
      = ((createConversation phone now1 s).1, (createConversation phone now1 s).2) := by
  have hne := conv_cid_ne_empty (toString (s.currentConversationId + 1)) (toString now1)
  simp only [createConversation, getOrCreateConversation]
  rw [alookupK_asetK_self _ _ hk]
  simp [hne, alookup_aset_self]

/-- Two immediately consecutive `getOrCreateConversation` calls for the same
key agree on the id and the second leaves the state untouched. -/
theorem getOrCreate_stable (phone : Option JVal) (now1 now2 : Int) (s : MMState)
    (hk : jkeyEq phone phone = true) :
    getOrCreateConversation phone now2 (getOrCreateConversation phone now1 s).2
      = ((getOrCreateConversation phone now1 s).1,
         (getOrCreateConversation phone now1 s).2) := by
  cases h1 : alookupK phone s.phoneToConversationId with
  | none =>
    have hfirst : getOrCreateConversation phone now1 s
        = createConversation phone now1 s := by
      simp [getOrCreateConversation, h1]
    rw [hfirst]
    exact getOrCreate_after_create phone now2 now1 s hk
  | some cid =>
    by_cases hc : cid = ""
    · have hfirst : getOrCreateConversation phone now1 s
          = createConversation phone now1 s := by
        simp [getOrCreateConversation, h1, hc]
      rw [hfirst]
      exact getOrCreate_after_create phone now2 now1 s hk
    · cases h2 : alookup cid s.activeConversations with
      | none =>
        have hfirst : getOrCreateConversation phone now1 s
            = createConversation phone now1 s := by
          simp [getOrCreateConversation, h1, hc, h2]
        rw [hfirst]
        exact getOrCreate_after_create phone now2 now1 s hk
      | some st =>
        by_cases ha : st.active = true
        · have hfirst : getOrCreateConversation phone now1 s = (cid, s) := by
            simp [getOrCreateConversation, h1, hc, h2, ha]
          rw [hfirst]
          show getOrCreateConversation phone now2 s = (cid, s)
          simp [getOrCreateConversation, h1, hc, h2, ha]
        · have hfirst : getOrCreateConversation phone now1 s
              = createConversation phone now1 s := by
            simp [getOrCreateConversation, h1, hc, h2, ha]
          rw [hfirst]
          exact getOrCreate_after_create phone now2 now1 s hk

/-- The id returned by `getOrCreateConversation` always denotes an existing,
active record in the returned state (this discharges the source's non-null
`get!` assertions after a get-or-create). -/
theorem getOrCreate_found (phone : Option JVal) (now : Int) (s : MMState) :
    ∃ st, alookup (getOrCreateConversation phone now s).1
        (getOrCreateConversation phone now s).2.activeConversations = some st
      ∧ st.active = true := by
  have hcreate : ∀ (s2 : MMState),
      ∃ st, alookup (createConversation phone now s2).1
          (createConversation phone now s2).2.activeConversations = some st
        ∧ st.active = true := by
    intro s2
    exact ⟨_, show alookup _ (aset _ _ _) = _ from alookup_aset_self _ _ _, rfl⟩
  cases h1 : alookupK phone s.phoneToConversationId with
  | none =>
    have hfirst : getOrCreateConversation phone now s
        = createConversation phone now s := by
      simp [getOrCreateConversation, h1]
    rw [hfirst]
    exact hcreate s
  | some cid =>
    by_cases hc : cid = ""
    · have hfirst : getOrCreateConversation phone now s
          = createConversation phone now s := by
        simp [getOrCreateConversation, h1, hc]
      rw [hfirst]
      exact hcreate s
    · cases h2 : alookup cid s.activeConversations with
      | none =>
        have hfirst : getOrCreateConversation phone now s
            = createConversation phone now s := by
          simp [getOrCreateConversation, h1, hc, h2]
        rw [hfirst]
        exact hcreate s
      | some st =>
        by_cases ha : st.active = true
        · have hfirst : getOrCreateConversation phone now s = (cid, s) := by
            simp [getOrCreateConversation, h1, hc, h2, ha]
          rw [hfirst]
          exact ⟨st, h2, ha⟩
        · have hfirst : getOrCreateConversation phone now s
              = createConversation phone now s := by
            simp [getOrCreateConversation, h1, hc, h2, ha]
          rw [hfirst]
          exact hcreate s

/-- C8: calling `getOrCreateConversation` twice in succession with the same
raw phone number string and no intervening operation returns the same
conversation id both times, and the second call does not change the state
(the mapped active conversation is reused rather than forked). -/
theorem getOrCreate_twice_same_id (s : MMState) (p : String) (now1 now2 : Int) :
    (getOrCreateConversation (strKey p) now2
        (getOrCreateConversation (strKey p) now1 s).2).1
      = (getOrCreateConversation (strKey p) now1 s).1 ∧
    (getOrCreateConversation (strKey p) now2
        (getOrCreateConversation (strKey p) now1 s).2).2
      = (getOrCreateConversation (strKey p) now1 s).2 := by
  have h := getOrCreate_stable (strKey p) now1 now2 s (jkeyEq_strKey p)
  exact ⟨congrArg Prod.fst h, congrArg Prod.snd h⟩

/-- C10: `sendMessage` propagates a provider failure unchanged and in that
case performs no history append and no `lastMessageAt` update (the state is
exactly the post-get-or-create state; when the phone already maps to an
active conversation even that is the untouched input state); on provider
success it appends exactly one `claude`-role entry with the sent text and
bumps `lastMessageAt`. -/
theorem sendMessage_appends_only_on_success (s : MMState) (phone msg : String)
    (now : Int) (e mid : String) :
    (sendMessage s phone msg now (.error e)
      = (.error e, (getOrCreateConversation (strKey phone) now s).2)) ∧
    ((∃ cid st, alookupK (strKey phone) s.phoneToConversationId = some cid ∧
        cid ≠ "" ∧ alookup cid s.activeConversations = some st ∧ st.active = true) →
      sendMessage s phone msg now (.error e) = (.error e, s)) ∧
    ((sendMessage s phone msg now (.ok mid)).1
      = .ok ((getOrCreateConversation (strKey phone) now s).1, mid)) ∧
    (getConversationHistory (sendMessage s phone msg now (.ok mid)).2
        (getOrCreateConversation (strKey phone) now s).1
      = getConversationHistory (getOrCreateConversation (strKey phone) now s).2
          (getOrCreateConversation (strKey phone) now s).1
        ++ [{ role := .claude, text := .str msg, timestamp := some now }]) ∧
    (∃ st2, alookup (getOrCreateConversation (strKey phone) now s).1
        (sendMessage s phone msg now (.ok mid)).2.activeConversations = some st2
      ∧ st2.lastMessageAt = some now) := by
  obtain ⟨st, hst, hact⟩ := getOrCreate_found (strKey phone) now s
  have hsend2 : (sendMessage s phone msg now (.ok mid)).2.activeConversations
      = aupdate (getOrCreateConversation (strKey phone) now s).1
          (fun st0 => { st0 with
            messageHistory := st0.messageHistory
              ++ [{ role := .claude, text := .str msg, timestamp := some now }],
            lastMessageAt := some now })
          (getOrCreateConversation (strKey phone) now s).2.activeConversations := rfl
  have hupd : alookup (getOrCreateConversation (strKey phone) now s).1
      (sendMessage s phone msg now (.ok mid)).2.activeConversations
      = some { st with
          messageHistory := st.messageHistory
            ++ [{ role := .claude, text := .str msg, timestamp := some now }],
          lastMessageAt := some now } := by
    rw [hsend2, alookup_aupdate_self, hst]
    rfl
  refine ⟨rfl, ?_, rfl, ?_, ⟨_, hupd, rfl⟩⟩
  · rintro ⟨cid, st0, h1, hc, h2, ha⟩
    have hfirst : getOrCreateConversation (strKey phone) now s = (cid, s) := by
      simp [getOrCreateConversation, h1, hc, h2, ha]
    have hc1 : sendMessage s phone msg now (.error e)
        = (.error e, (getOrCreateConversation (strKey phone) now s).2) := rfl
    rw [hc1, hfirst]
  · simp [getConversationHistory, hupd, hst]

/-- Witness for C10: a provider failure against a registry that already has
an active conversation for the number leaves the registry untouched. -/
theorem sendMessage_appends_only_on_success_witness :
    sendMessage
      { activeConversations :=
          [("conv-1-5",
            { conversationId := "conv-1-5", userPhoneNumber := strKey "15551234567",
              messageHistory := [], startTime := 5, lastMessageAt := some 5,
              active := true })],
        phoneToConversationId := [(strKey "15551234567", "conv-1-5")],
        currentConversationId := 1 }
      "15551234567" "hello" 7 (.error "network down")
    = (.error "network down",
       { activeConversations :=
           [("conv-1-5",
             { conversationId := "conv-1-5", userPhoneNumber := strKey "15551234567",
               messageHistory := [], startTime := 5, lastMessageAt := some 5,
               active := true })],
         phoneToConversationId := [(strKey "15551234567", "conv-1-5")],
         currentConversationId := 1 }) := by
  have h := sendMessage_appends_only_on_success
    { activeConversations :=
        [("conv-1-5",
          { conversationId := "conv-1-5", userPhoneNumber := strKey "15551234567",
            messageHistory := [], startTime := 5, lastMessageAt := some 5,
            active := true })],
      phoneToConversationId := [(strKey "15551234567", "conv-1-5")],
      currentConversationId := 1 }
    "15551234567" "hello" 7 "network down" "wamid.1"
  exact h.2.1 ⟨"conv-1-5", _, rfl, by decide, rfl, rfl⟩

/-! ## Webhook gate and acknowledgment claims -/

/-- C6: a POST webhook delivery that fails signature verification is answered
with 401 and nothing else happens: the handler returns before parsing, so the
result does not depend on what the body would parse to, the conversation
registry is untouched and no pending reply is resolved (the whole state is
returned unchanged). -/
theorem invalid_signature_rejected_untouched (appSecret : String)
    (signature : Option String) (body : String) (parsed : Option JVal)
    (now : Int) (s : SysState)
    (h : validateMetaWhatsAppSignature appSecret signature body = false) :
    handleWebhookPost appSecret signature body parsed now s
      = (.unauthorized401, s) := by
  simp [handleWebhookPost, h]

/-- Witness for C6: a delivery with no signature header is rejected with 401
and the state — including a live pending reply — is untouched. -/
theorem invalid_signature_rejected_untouched_witness :
    handleWebhookPost "testsecret" none "null" (some JVal.null) 0
      ⟨⟨[], [], 0⟩, ⟨[("15551234567", 0)], [(0, "15551234567")], []⟩⟩
      = (.unauthorized401,
         ⟨⟨[], [], 0⟩, ⟨[("15551234567", 0)], [(0, "15551234567")], []⟩⟩) :=
  invalid_signature_rejected_untouched "testsecret" none "null" (some JVal.null) 0
    ⟨⟨[], [], 0⟩, ⟨[("15551234567", 0)], [(0, "15551234567")], []⟩⟩ rfl

/-! Lemmas showing that well-shaped events are processed without a thrown
exception. -/

theorem wsFor_elim {v : Option JVal} {p : JVal → Bool} (h : wsFor v p = true) :
    ∃ xs, jsForOf v = .ok xs ∧ ∀ x ∈ xs, p x = true := by
  unfold wsFor at h
  cases hf : jsForOf v with
  | error e => rw [hf] at h; exact Bool.noConfusion h
  | ok xs =>
    rw [hf] at h
    exact ⟨xs, rfl, List.all_eq_true.mp h⟩

theorem runList_no_throw {α : Type} (f : α → SysState → SysState × Bool)
    (l : List α) (h : ∀ x ∈ l, ∀ s, (f x s).2 = false) :
    ∀ s, (runList f l s).2 = false := by
  induction l with
  | nil => intro s; rfl
  | cons x xs ih =>
    intro s
    have hx := h x (List.mem_cons_self x xs) s
    simp only [runList, hx, Bool.false_eq_true, if_false]
    exact ih (fun y hy s2 => h y (List.mem_cons_of_mem _ hy) s2) _

theorem handleIncomingMessage_no_throw {m : JVal} (h : wsMsg m = true)
    (now : Int) (s : SysState) : (handleIncomingMessage now m s).2 = false := by
  unfold wsMsg at h
  unfold handleIncomingMessage
  cases hf : prop m "from" with
  | error e => rw [hf] at h; exact Bool.noConfusion h
  | ok fromV =>
    rw [hf] at h
    simp only []
    cases hex : extractText m with
    | none => simp [hex]
    | some tv =>
      rw [hex] at h
      simp only [Bool.and_eq_true] at h
      obtain ⟨h1, h2⟩ := h
      cases tv with
      | str tt =>
        cases fromV with
        | none => simp [isStrV] at h2
        | some fv =>
          cases fv with
          | str ff => simp [hex]
          | null => simp [isStrV] at h2
          | bool b => simp [isStrV] at h2
          | num n => simp [isStrV] at h2
          | arr xs => simp [isStrV] at h2
          | obj fs => simp [isStrV] at h2
      | null => simp [isStrV] at h1
      | bool b => simp [isStrV] at h1
      | num n => simp [isStrV] at h1
      | arr xs => simp [isStrV] at h1
      | obj fs => simp [isStrV] at h1

theorem statuses_no_throw {sts : List JVal}
    (h : ∀ st ∈ sts, wsStatus st = true) : sts.any statusThrew = false := by
  rw [List.any_eq_false]
  intro st hst
  have h2 := h st hst
  unfold wsStatus at h2
  simpa using h2

theorem processChange_no_throw {c : JVal} (h : wsChange c = true) (now : Int)
    (s : SysState) : (processChange now c s).2 = false := by
  unfold wsChange at h
  unfold processChange
  cases hv : prop c "value" with
  | error e =>
    rw [hv] at h
    exact Bool.noConfusion h
  | ok valueV =>
    rw [hv] at h
    simp only [] at h
    simp only []
    cases hm : propO valueV "messages" with
    | error e =>
      rw [hm] at h
      exact Bool.noConfusion h
    | ok messagesV =>
      rw [hm] at h
      simp only [Bool.and_eq_true] at h
      obtain ⟨hmsgs, hsts⟩ := h
      obtain ⟨msgs, hfor, hall⟩ := wsFor_elim hmsgs
      simp only []
      rw [hfor]
      simp only []
      have hrun : (runList (handleIncomingMessage now) msgs s).2 = false :=
        runList_no_throw _ _
          (fun x hx s2 => handleIncomingMessage_no_throw (hall x hx) now s2) s
      simp only [hrun, Bool.false_eq_true, if_false]
      cases hs2 : propO valueV "statuses" with
      | error e =>
        rw [hs2] at hsts
        exact Bool.noConfusion hsts
      | ok statusesV =>
        rw [hs2] at hsts
        simp only [] at hsts
        obtain ⟨sts, hfor2, hall2⟩ := wsFor_elim hsts
        simp only []
        rw [hfor2]
        simp only []
        exact statuses_no_throw hall2

theorem processEntry_no_throw {e : JVal} (h : wsEntry e = true) (now : Int)
    (s : SysState) : (processEntry now e s).2 = false := by
  unfold wsEntry at h
  unfold processEntry
  cases hc : prop e "changes" with
  | error e2 =>
    rw [hc] at h
    exact Bool.noConfusion h
  | ok changesV =>
    rw [hc] at h
    simp only [] at h
    simp only []
    obtain ⟨chs, hfor, hall⟩ := wsFor_elim h
    rw [hfor]
    simp only []
    exact runList_no_throw _ _
      (fun x hx s2 => processChange_no_throw (hall x hx) now s2) s

theorem processWhatsAppEvent_no_throw {ev : JVal} (h : wsEvent ev = true)
    (now : Int) (s : SysState) : (processWhatsAppEvent now ev s).2 = false := by
  unfold wsEvent at h
  unfold processWhatsAppEvent
  cases ho : prop ev "object" with
  | error e =>
    rw [ho] at h
    exact Bool.noConfusion h
  | ok objV =>
    rw [ho] at h
    cases objV with
    | none => simp
    | some ov =>
      cases ov with
      | str tag =>
        simp only [] at h
        simp only []
        by_cases htag : tag = "whatsapp_business_account"
        · subst htag
          rw [if_pos rfl] at h
          rw [if_pos rfl]
          cases he : prop ev "entry" with
          | error e =>
            rw [he] at h
            exact Bool.noConfusion h
          | ok entryV =>
            rw [he] at h
            simp only [] at h
            obtain ⟨entries, hfor, hall⟩ := wsFor_elim h
            simp only []
            rw [hfor]
            simp only []
            exact runList_no_throw _ _
              (fun x hx s2 => processEntry_no_throw (hall x hx) now s2) s
        · simp [htag]
      | null => simp
      | bool b => simp
      | num n => simp
      | arr xs => simp
      | obj fs => simp

/-- C4 (amended): a POST delivery with a valid signature whose body parses to
a well-shaped event — `null` entries absent, truthy `entry`, `changes`,
`messages` and `statuses` fields iterable, and every extracted message
payload and its sender a string — is acknowledged with 200 no matter how
many message sub-entries were skipped as unsupported and no matter how many
status sub-entries the batch carries; skipped sub-entries never surface as a
failed acknowledgment. -/
theorem wellformed_webhook_acknowledged_ok (appSecret : String)
    (signature : Option String) (body : String) (ev : JVal) (now : Int)
    (s : SysState)
    (hsig : validateMetaWhatsAppSignature appSecret signature body = true)
    (hws : wsEvent ev = true) :
    handleWebhookPost appSecret signature body (some ev) now s
      = (.ok200, (processWhatsAppEvent now ev s).1) := by
  have hnothrow := processWhatsAppEvent_no_throw hws now s
  simp [handleWebhookPost, hsig, hnothrow]

/-- Witness for C4: a correctly signed delivery whose batch contains one
unsupported (skipped) message and one status update is acknowledged with
200. -/
theorem wellformed_webhook_acknowledged_ok_witness :
    handleWebhookPost "testsecret"
      (some "sha256=6b84f3dd0c33c6bf62bc990a96dd5d105c381f0b6113b4b1b8e0343e7b169cc6")
      "x"
      (some (.obj [("object", .str "whatsapp_business_account"),
        ("entry", .arr [.obj [("changes", .arr [.obj [("value",
          .obj [("messages", .arr [.obj [("type", .str "image"),
                  ("from", .str "15551234567"), ("id", .str "m1")]]),
                ("statuses", .arr [.obj [("id", .str "m0"),
                  ("status", .str "delivered"), ("timestamp", .str "1")]])])]])]])]))
      0 ⟨⟨[], [], 0⟩, ⟨[], [], []⟩⟩
      = (.ok200, (processWhatsAppEvent 0
          (.obj [("object", .str "whatsapp_business_account"),
            ("entry", .arr [.obj [("changes", .arr [.obj [("value",
              .obj [("messages", .arr [.obj [("type", .str "image"),
                      ("from", .str "15551234567"), ("id", .str "m1")]]),
                    ("statuses", .arr [.obj [("id", .str "m0"),
                      ("status", .str "delivered"), ("timestamp", .str "1")]])])]])]])])
          ⟨⟨[], [], 0⟩, ⟨[], [], []⟩⟩).1) := by
  apply wellformed_webhook_acknowledged_ok
  · decide
  · decide

/-- Counterexample for C4 as frozen: the body `"null"` parses successfully as
JSON (to JS `null`), its signature is valid, yet the response is 400, not
200 — reading `event.object` throws a `TypeError` that the handler's catch
maps to `400 Invalid request`. -/
theorem parseable_body_answered_400 :
    validateMetaWhatsAppSignature "testsecret"
      (some "sha256=2683a3bc8cfb159409e9c01fcccfe01179c63167e996b1ce18ddcf6c72806540")
      "null" = true ∧
    (handleWebhookPost "testsecret"
      (some "sha256=2683a3bc8cfb159409e9c01fcccfe01179c63167e996b1ce18ddcf6c72806540")
      "null" (some JVal.null) 0 ⟨⟨[], [], 0⟩, ⟨[], [], []⟩⟩).1
      = HttpStatus.badRequest400 := by
  have hv : validateMetaWhatsAppSignature "testsecret"
      (some "sha256=2683a3bc8cfb159409e9c01fcccfe01179c63167e996b1ce18ddcf6c72806540")
      "null" = true := by decide
  refine ⟨hv, ?_⟩
  simp [handleWebhookPost, hv, processWhatsAppEvent, prop]

/-! ## Reply correlation across phone-number formats (C1) -/

/-- C1 (amended): if a reply-wait is registered under `normalize(a)` and a
webhook delivers an inbound text message with a nonempty body from sender
`b`, where `normalize(a) == normalize(b)`, then processing the message does
not throw, the waiter is resolved with exactly the message's text, and the
table entry is removed. -/
theorem normalized_match_resolves_wait (a b idStr tsStr t : String)
    (w : Nat) (now : Int) (s : SysState)
    (hab : normalizePhoneNumber a = normalizePhoneNumber b)
    (hpend : alookup (normalizePhoneNumber a) s.ps.pending = some w)
    (hw : alookup w s.ps.settled = none) (ht : t ≠ "") :
    (handleIncomingMessage now (mkTextMsg b idStr tsStr t) s).2 = false ∧
    alookup w (handleIncomingMessage now (mkTextMsg b idStr tsStr t) s).1.ps.settled
      = some (POutcome.reply t) ∧
    alookup (normalizePhoneNumber a)
      (handleIncomingMessage now (mkTextMsg b idStr tsStr t) s).1.ps.pending
      = none := by
  have hex : extractText (mkTextMsg b idStr tsStr t) = some (.str t) := by
    have h1 : jsProp (mkTextMsg b idStr tsStr t) "type" = some (.str "text") := rfl
    have h2 : optChain (jsProp (mkTextMsg b idStr tsStr t) "text") "body"
        = some (.str t) := rfl
    simp [extractText, h1, h2, truthy, ht]
  have hfrom : prop (mkTextMsg b idStr tsStr t) "from" = .ok (some (.str b)) := rfl
  have hmain : handleIncomingMessage now (mkTextMsg b idStr tsStr t) s
      = ({ mm := pushHistory (getOrCreateConversation (some (.str b)) now s.mm).1
             { role := .user, text := .str t,
               timestamp := (jsParseInt (some (.str tsStr))).map (fun n => n * 1000) }
             ((jsParseInt (some (.str tsStr))).map (fun n => n * 1000))
             (getOrCreateConversation (some (.str b)) now s.mm).2,
           ps := pstep s.ps (.inbound b t) }, false) := by
    unfold handleIncomingMessage
    rw [hfrom]
    simp only []
    rw [hex]
    simp only []
    rfl
  rw [hmain]
  have hpendb : alookup (normalizePhoneNumber b) s.ps.pending = some w := by
    rw [← hab]
    exact hpend
  rw [pstep_inbound_hit t hpendb]
  refine ⟨rfl, alookup_settle_of_none _ hw, ?_⟩
  show alookup (normalizePhoneNumber a)
    (aerase (normalizePhoneNumber b) s.ps.pending) = none
  rw [hab]
  exact alookup_aerase_self _ _

/-- Witness for C1 (amended) at two differently formatted renderings of the
same number. -/
theorem normalized_match_resolves_wait_witness :
    alookup 0 (handleIncomingMessage 0
        (mkTextMsg "+1 555 123 4567" "wamid.in" "1700000000" "done")
        ⟨⟨[], [], 0⟩, ⟨[("15551234567", 0)], [(0, "15551234567")], []⟩⟩).1.ps.settled
      = some (POutcome.reply "done") := by
  have h := normalized_match_resolves_wait "+1-555-123-4567" "+1 555 123 4567"
    "wamid.in" "1700000000" "done" 0 0
    ⟨⟨[], [], 0⟩, ⟨[("15551234567", 0)], [(0, "15551234567")], []⟩⟩
    (by decide) (by decide) rfl (by decide)
  exact h.2.1

/-- Counterexample for C1 as frozen: a delivered text message whose body is
the empty string is skipped by the truthiness test in
`handleIncomingMessage` (`message.text?.body` is falsy), so a reply-wait
registered under the matching normalized key is NOT resolved — the
pending-reply state is returned completely unchanged. -/
theorem empty_text_message_not_resolved :
    normalizePhoneNumber "+1-555-123-4567" = normalizePhoneNumber "+1 555 123 4567" ∧
    (handleIncomingMessage 0 (mkTextMsg "+1 555 123 4567" "wamid.in" "1" "")
        ⟨⟨[], [], 0⟩, ⟨[("15551234567", 0)], [(0, "15551234567")], []⟩⟩).2 = false ∧
    (handleIncomingMessage 0 (mkTextMsg "+1 555 123 4567" "wamid.in" "1" "")
        ⟨⟨[], [], 0⟩, ⟨[("15551234567", 0)], [(0, "15551234567")], []⟩⟩).1.ps
      = ⟨[("15551234567", 0)], [(0, "15551234567")], []⟩ := by
  exact ⟨by decide, rfl, rfl⟩

/-! ## The signature verifier (C3) -/

theorem lor_eq_zero_iff (a b : Nat) : a ||| b = 0 ↔ a = 0 ∧ b = 0 := by
  constructor
  · intro h
    constructor
    · apply Nat.eq_of_testBit_eq
      intro i
      have h2 := congrArg (fun x => Nat.testBit x i) h
      simp only [Nat.testBit_or, Nat.zero_testBit, Bool.or_eq_false_iff] at h2
      simp [h2.1]
    · apply Nat.eq_of_testBit_eq
      intro i
      have h2 := congrArg (fun x => Nat.testBit x i) h
      simp only [Nat.testBit_or, Nat.zero_testBit, Bool.or_eq_false_iff] at h2
      simp [h2.2]
  · rintro ⟨ha, hb⟩
    rw [ha, hb]
    simp

theorem xorAccL_shift (ps : List (Nat × Nat)) :
    ∀ r, xorAccL r ps = r ||| xorAccL 0 ps := by
  induction ps with
  | nil => intro r; simp [xorAccL]
  | cons p ps ih =>
    intro r
    show xorAccL (r ||| (p.1 ^^^ p.2)) ps = r ||| xorAccL (0 ||| (p.1 ^^^ p.2)) ps
    rw [ih (r ||| (p.1 ^^^ p.2)), ih (0 ||| (p.1 ^^^ p.2)), Nat.zero_or, Nat.or_assoc]

theorem xorAccL_zero_iff (ps : List (Nat × Nat)) :
    xorAccL 0 ps = 0 ↔ ∀ p ∈ ps, p.1 = p.2 := by
  induction ps with
  | nil => simp [xorAccL]
  | cons p ps ih =>
    show xorAccL (0 ||| (p.1 ^^^ p.2)) ps = 0 ↔ _
    rw [Nat.zero_or, xorAccL_shift ps (p.1 ^^^ p.2), lor_eq_zero_iff, Nat.xor_eq_zero]
    constructor
    · rintro ⟨h1, h2⟩ q hq
      rcases List.mem_cons.mp hq with h | h
      · rw [h]
        exact h1
      · exact (ih.mp h2) q h
    · intro hall
      exact ⟨hall p (List.mem_cons_self _ _),
        ih.mpr (fun q hq => hall q (List.mem_cons_of_mem _ hq))⟩

theorem zip_forall_eq (a : List Nat) : ∀ (b : List Nat), a.length = b.length →
    ((∀ p ∈ a.zip b, p.1 = p.2) ↔ a = b) := by
  induction a with
  | nil =>
    intro b h
    cases b with
    | nil => simp
    | cons y ys => simp at h
  | cons x xs ih =>
    intro b h
    cases b with
    | nil => simp at h
    | cons y ys =>
      have hlen : xs.length = ys.length := by simpa using h
      simp only [List.zip_cons_cons, List.mem_cons, List.cons.injEq]
      constructor
      · intro hall
        refine ⟨hall (x, y) (Or.inl rfl), (ih ys hlen).mp ?_⟩
        intro q hq
        exact hall q (Or.inr hq)
      · rintro ⟨hxy, hrest⟩ q hq
        rcases hq with h1 | h1
        · rw [h1]
          exact hxy
        · exact (ih ys hlen).mpr hrest q h1

/-- The hand-rolled constant-time comparison accepts exactly equal byte
lists. -/
theorem timingSafeEqual_iff (a b : List Nat) :
    timingSafeEqual a b = true ↔ a = b := by
  unfold timingSafeEqual
  by_cases hlen : a.length = b.length
  · rw [if_neg (by simpa using hlen)]
    rw [decide_eq_true_eq, xorAccL_zero_iff]
    exact zip_forall_eq a b hlen
  · rw [if_pos hlen]
    constructor
    · intro hf
      exact Bool.noConfusion hf
    · intro hab
      exact absurd (congrArg List.length hab) hlen

/-- Node's hex decoding inverts the lowercase hex encoding of a byte list. -/
theorem hexPairs_bytesToHex {bs : List Nat} (hb : ∀ b ∈ bs, b < 256) :
    hexPairs (bytesToHex bs).data = bs := by
  have hv : ∀ n, n < 16 → hexVal (hexDigitCh n) = some n := by decide
  induction bs with
  | nil => rfl
  | cons b rest ih =>
    have hb256 : b < 256 := hb b (List.mem_cons_self _ _)
    have hd : (bytesToHex (b :: rest)).data
        = hexDigitCh (b / 16 % 16) :: hexDigitCh (b % 16) :: (bytesToHex rest).data := rfl
    rw [hd]
    simp only [hexPairs, hv (b / 16 % 16) (Nat.mod_lt _ (by omega)),
      hv (b % 16) (Nat.mod_lt _ (by omega))]
    rw [ih (fun x hx => hb x (List.mem_cons_of_mem _ hx))]
    congr 1
    omega

/-- Every byte of a SHA-256 digest is `< 256`. -/
theorem sha256_bytes_lt (msg : List Nat) : ∀ b ∈ sha256 msg, b < 256 := by
  intro b hb
  unfold sha256 at hb
  rw [List.mem_flatten] at hb
  obtain ⟨l, hl, hbl⟩ := hb
  rw [List.mem_map] at hl
  obtain ⟨w, hw, hlw⟩ := hl
  rw [← hlw] at hbl
  unfold wordBytes at hbl
  simp only [List.mem_cons, List.not_mem_nil, or_false] at hbl
  have hle : ∀ x : Nat, x &&& 0xff < 256 :=
    fun x => Nat.lt_succ_of_le Nat.and_le_right
  rcases hbl with h | h | h | h <;> rw [h] <;> exact hle _

theorem beginsWith_append (pre rest : List Char) :
    beginsWith pre (pre ++ rest) = true := by
  induction pre with
  | nil => simp [beginsWith]
  | cons c cs ih => simp [beginsWith, ih]

/-- Characterization of the signature validator on a present header. -/
theorem validate_iff (S B sig : String) :
    validateMetaWhatsAppSignature S (some sig) B = true ↔
      (sig ≠ "" ∧ beginsWith "sha256=".data sig.data = true ∧
        hexPairs (sig.data.drop 7) = hmacSha256 (utf8 S) (utf8 B)) := by
  unfold validateMetaWhatsAppSignature
  simp only []
  by_cases h0 : sig = ""
  · rw [if_pos h0]
    simp [h0]
  · rw [if_neg h0]
    by_cases h1 : beginsWith "sha256=".data sig.data = true
    · rw [if_neg (by simp [h1])]
      rw [timingSafeEqual_iff]
      unfold hmacSha256
      rw [hexPairs_bytesToHex (fun b hb => sha256_bytes_lt _ b hb)]
      simp [h0, h1]
    · rw [if_pos (by simpa using h1)]
      constructor
      · intro hf
        exact Bool.noConfusion hf
      · rintro ⟨-, hbw, -⟩
        exact absurd hbw h1

/-- The canonical lowercase header verifies true. -/
theorem validate_canonical (S B : String) :
    validateMetaWhatsAppSignature S (some (mkSigHeader S B)) B = true := by
  rw [validate_iff]
  refine ⟨?_, ?_, ?_⟩
  · intro hh
    unfold mkSigHeader at hh
    have hlen := congrArg String.length hh
    rw [String.length_append] at hlen
    rw [show ("sha256=" : String).length = 7 from rfl,
      show ("" : String).length = 0 from rfl] at hlen
    omega
  · show beginsWith "sha256=".data ("sha256=" ++ _).data = true
    rw [String.data_append]
    exact beginsWith_append _ _
  · show hexPairs (("sha256=" ++ bytesToHex (hmacSha256 (utf8 S) (utf8 B))).data.drop 7)
      = hmacSha256 (utf8 S) (utf8 B)
    rw [String.data_append]
    rw [show ("sha256=" : String).data = ['s', 'h', 'a', '2', '5', '6', '='] from rfl]
    rw [show List.drop 7 (['s', 'h', 'a', '2', '5', '6', '=']
        ++ (bytesToHex (hmacSha256 (utf8 S) (utf8 B))).data)
      = (bytesToHex (hmacSha256 (utf8 S) (utf8 B))).data from rfl]
    unfold hmacSha256
    exact hexPairs_bytesToHex (fun b hb => sha256_bytes_lt _ b hb)

/-- C3 (amended): the signature check returns true exactly when the header is
present, nonempty, starts with `sha256=`, and its remainder hex-decodes — by
Node's case-insensitive, truncating hex decoding — to exactly the 32-byte
HMAC-SHA256 of the body under the secret.  In particular the canonical
lowercase header verifies true, and a missing or empty header always
verifies false; any header or body modification that changes the decoded or
computed digest verifies false, but a case change inside a hex digit decodes
to the same digest and is still accepted. -/
theorem signature_check_characterization :
    (∀ S B, validateMetaWhatsAppSignature S (some (mkSigHeader S B)) B = true) ∧
    (∀ S B, validateMetaWhatsAppSignature S none B = false) ∧
    (∀ S B, validateMetaWhatsAppSignature S (some "") B = false) ∧
    (∀ S B sig, validateMetaWhatsAppSignature S (some sig) B = true ↔
      (sig ≠ "" ∧ beginsWith "sha256=".data sig.data = true ∧
        hexPairs (sig.data.drop 7) = hmacSha256 (utf8 S) (utf8 B))) :=
  ⟨validate_canonical, fun _ _ => rfl, fun _ _ => rfl,
   fun S B sig => validate_iff S B sig⟩

/-- Counterexample for C3 as frozen: uppercasing one hex digit of the valid
header is a single-byte flip, yet the header still verifies true, because
`Buffer.from(·, 'hex')` decodes hex case-insensitively.  The two headers
differ in exactly one position. -/
theorem header_case_flip_still_verifies :
    mkSigHeader "secret" "hello"
      = "sha256=88aab3ede8d3adf94d26ab90d3bafd4a2083070c3bcce9c014ee04a443847c0b" ∧
    validateMetaWhatsAppSignature "secret"
      (some "sha256=88aab3ede8d3adf94d26ab90d3bafd4a2083070c3bcce9c014ee04a443847c0b")
      "hello" = true ∧
    validateMetaWhatsAppSignature "secret"
      (some "sha256=88Aab3ede8d3adf94d26ab90d3bafd4a2083070c3bcce9c014ee04a443847c0b")
      "hello" = true ∧
    ("sha256=88Aab3ede8d3adf94d26ab90d3bafd4a2083070c3bcce9c014ee04a443847c0b" : String)
      ≠ "sha256=88aab3ede8d3adf94d26ab90d3bafd4a2083070c3bcce9c014ee04a443847c0b" ∧
    diffCount "sha256=88Aab3ede8d3adf94d26ab90d3bafd4a2083070c3bcce9c014ee04a443847c0b"
      "sha256=88aab3ede8d3adf94d26ab90d3bafd4a2083070c3bcce9c014ee04a443847c0b" = 1 := by
  decide

end WhatsappMe
